import Mathlib

/-!
Shallow embedding of the `desktop-background` renderer (src/main.rs and
src/render.rs) together with theorems checking the specification's claims.

Conventions of the embedding:
* Rust `u32` values are `Nat`; `% 4294967296` is inserted exactly where the
  source arithmetic can wrap in release builds (`u32` addition/multiplication).
* Fallible Rust code (`anyhow::Result`, `?`, `bail!`) is `Except Unit` /
  `Except` carrying the relevant state; an arithmetic panic
  (division by zero) is modelled as `Option.none`.
* `f32` tint components are rationals; the `as u8` saturating-truncating cast
  is `ratToU8`.
* The image loader (`image::open` + `imageops::resize`) is external I/O and is
  passed in as a function `String → Option Frame` from file path to RGBA bytes,
  `none` standing for a load error.
-/

deriving instance DecidableEq for Except

namespace DesktopBackground

/-- `PRE_BUFFERED_IMAGES` from the source. -/
def PRE_BUFFERED_IMAGES : Nat := 10

/-- `MILLIS_PER_SECOND` from the source. -/
def MILLIS_PER_SECOND : Nat := 1000

/-- `MILLIS_PER_MINUTE` from the source. -/
def MILLIS_PER_MINUTE : Nat := 60 * MILLIS_PER_SECOND

/-- `MILLIS_PER_HOUR` from the source. -/
def MILLIS_PER_HOUR : Nat := 60 * MILLIS_PER_MINUTE

/-- `MILLIS_TOTAL` from the source (12 hours in milliseconds). -/
def MILLIS_TOTAL : Nat := 12 * MILLIS_PER_HOUR

/-- 2^32, the wraparound modulus of Rust `u32` arithmetic. -/
def U32_MOD : Nat := 4294967296

/-- An RGBA pixel buffer: a flat list of bytes (row-major RGBA, 4 bytes per
pixel, as produced by `image::RgbaImage`). -/
abbrev Frame := List Nat

/-- A cache entry `(u32, RgbaImage)`: a time slot paired with a frame. -/
abbrev Entry := Nat × Frame

/-- The frame cache `VecDeque<(u32, RgbaImage)>`, `head` = deque front. -/
abbrev Cache := List Entry

/-- The arithmetic core of `clock_millis`: the milliseconds elapsed in the
current 12-hour half-cycle, floored to a multiple of `clock_step`.  The
wall-clock reading `(h, m, s, ms)` is passed explicitly (`Local::now()` is
external input). -/
def clockMillisAt (step h m s ms : Nat) : Nat :=
  ((h % 12) * MILLIS_PER_HOUR + m * MILLIS_PER_MINUTE + s * MILLIS_PER_SECOND + ms)
    / step * step

/-- `clock_millis` itself.  Rust integer division panics when the divisor is
zero; the panic is modelled as `none`. -/
def clockMillisOpt (step h m s ms : Nat) : Option Nat :=
  if step = 0 then none else some (clockMillisAt step h m s ms)

/-- Decimal representation of `n` left-padded with `'0'` to 8 characters:
Rust's `format!("{millis:08}")`. -/
def natPad8 (n : Nat) : String :=
  let s := toString n
  String.mk (List.replicate (8 - s.length) '0') ++ s

/-- Fuel-indexed worker for `replaceAll`; one unit of fuel is spent per
consumed character, so fuel equal to the input length always suffices. -/
def replaceAllAux (pat rep : List Char) : Nat → List Char → List Char
  | 0, s => s
  | fuel + 1, s =>
    match s with
    | [] => []
    | c :: rest =>
      if pat.isPrefixOf (c :: rest) ∧ pat ≠ [] then
        rep ++ replaceAllAux pat rep fuel ((c :: rest).drop pat.length)
      else
        c :: replaceAllAux pat rep fuel rest

/-- `str::replace` on character lists: replaces the non-overlapping
occurrences of `pat` left to right.  (The source only ever calls this with the
non-empty pattern `"%m"`; an empty pattern is left untouched here.) -/
def replaceAll (pat rep s : List Char) : List Char :=
  replaceAllAux pat rep s.length s

/-- `String.replace` as used by the source (`file_template.replace("%m", ...)`). -/
def strReplace (s pat rep : String) : String :=
  String.mk (replaceAll pat.toList rep.toList s.toList)

/-- `load_clock_image`'s path construction:
`dir.push(format!("{hour}/{file}", hour = millis / MILLIS_PER_HOUR,
file = file_template.replace("%m", format!("{millis:08}"))))`.
`PathBuf::push` joins with a `/` separator (the `dir` argument is taken
without a trailing separator). -/
def loadClockImagePath (dir tmpl : String) (millis : Nat) : String :=
  dir ++ "/" ++ toString (millis / MILLIS_PER_HOUR) ++ "/"
    ++ strReplace tmpl "%m" (natPad8 millis)

/-- The value of a hexadecimal digit character, `none` for non-digits
(accepting `0`-`9`, `a`-`f`, `A`-`F` like Rust's `char::to_digit(16)`; the
guards compare the character's code point against the ASCII ranges 48-57,
97-102 and 65-70). -/
def hexDigitVal? (c : Char) : Option Nat :=
  if 48 ≤ c.toNat ∧ c.toNat ≤ 57 then some (c.toNat - 48)
  else if 97 ≤ c.toNat ∧ c.toNat ≤ 102 then some (c.toNat - 87)
  else if 65 ≤ c.toNat ∧ c.toNat ≤ 70 then some (c.toNat - 55)
  else none

/-- One digit step of `from_str_radix`: multiply the accumulator by the radix
and add the digit, failing on a non-digit or on `u32` overflow. -/
def hexStep (acc : Option Nat) (c : Char) : Option Nat :=
  match acc, hexDigitVal? c with
  | some a, some d => if a * 16 + d < U32_MOD then some (a * 16 + d) else none
  | _, _ => none

/-- `u32::from_str_radix(string, 16)`: an optional leading `'+'` sign, then a
non-empty run of hex digits; errors on any other character, on an empty digit
run, and on overflow past `u32::MAX`. -/
def fromStrRadix16 (str : String) : Option Nat :=
  let cs := str.toList
  let ds := if cs.head? = some '+' then cs.tail else cs
  if ds = [] then none
  else ds.foldl hexStep (some 0)

/-- A resolved tint: the `[f32; 3]` RGB multiplier triple, components as
rationals. -/
abbrev Tint := ℚ × ℚ × ℚ

/-- Rust's `char::to_uppercase` (the per-character step of
`str::to_uppercase`): the locale-independent full Unicode uppercase mapping,
which can expand one character to several.  The table here carries the ASCII
letters plus every non-ASCII mapping whose output contains an ASCII letter
that this program ever compares against (the letters of `RAINBOW`): dotless
`ı` (U+0131) uppercases to `I`; `ſ` (U+017F) to `S` and `ß` (U+00DF) to `SS`
are included for good measure.  Every remaining Unicode case mapping sends a
non-ASCII character to non-ASCII characters or to ASCII letters outside
`R,A,I,N,B,O,W` mixed with non-ASCII marks (e.g. `ﬁ` to `FI`, `ŉ` to `ʼN`),
so defaulting those characters to themselves cannot change the result of the
one comparison the program makes, `string.to_uppercase() == "RAINBOW"`. -/
def rustToUpper (c : Char) : List Char :=
  if c = 'ı' then ['I']
  else if c = 'ſ' then ['S']
  else if c = 'ß' then ['S', 'S']
  else [c.toUpper]

/-- The `clock_color` validation in `Background::into_renderer`
(src/main.rs lines 89-112): `RAINBOW` (uppercased comparison) selects the
rotating tint, otherwise the value must fit in 6 bytes and parse as hex, and
yields the `[r,g,b]` triple `((parsed>>16)&0xFF)/255, ((parsed>>8)&0xFF)/255,
(parsed&0xFF)/255`.  `bail!` and the `?` on `from_str_radix` are `.error ()`.
`string.to_uppercase()` concatenates the per-character Unicode mapping
`rustToUpper`; `string.len()` is the UTF-8 byte length. -/
def parseClockColor : Option String → Except Unit (Bool × Option Tint)
  | none => .ok (false, none)
  | some s =>
    if s.toList.flatMap rustToUpper = "RAINBOW".toList then .ok (true, none)
    else if 6 < s.utf8ByteSize then .error ()
    else
      match fromStrRadix16 s with
      | none => .error ()
      | some p =>
        .ok (false, some
          ((((p >>> 16) &&& 255 : Nat) : ℚ) / 255,
           (((p >>> 8) &&& 255 : Nat) : ℚ) / 255,
           ((p &&& 255 : Nat) : ℚ) / 255))

/-- `u32::abs_diff`: the absolute difference (no modular reduction). -/
def absDiff (a b : Nat) : Nat := max a b - min a b

/-- The distance between two slots measured around the 12-hour cycle: the
shorter way around.  (Spec-side notion, used to state the claims that speak of
distance "modulo the cycle"; the code itself uses `absDiff`.) -/
def cycleDist (a b : Nat) : Nat :=
  min ((MILLIS_TOTAL + a - b) % MILLIS_TOTAL) ((MILLIS_TOTAL + b - a) % MILLIS_TOTAL)

/-- The eviction loop of `BackgroundRenderer::render` (src/render.rs lines
44-49): `while back().is_some_and(|(time, _)| time.abs_diff(current) >= step)
{ pop_back() }`, phrased on the reversed deque (back element first). -/
def evictRev (step target : Nat) : Cache → Cache
  | [] => []
  | e :: rest =>
    if step ≤ absDiff e.1 target then evictRev step target rest else e :: rest

/-- The eviction loop acting on the cache in deque order (front first). -/
def evictStale (step target : Nat) (c : Cache) : Cache :=
  (evictRev step target c.reverse).reverse

/-- The slot the prefetch loop loads next:
`front().map(|t| (t.0 + step) % MILLIS_TOTAL).unwrap_or(current_millis)`.
The `u32` addition wraps at `2^32` before the cycle reduction. -/
def nextLoadSlot (step target : Nat) (c : Cache) : Nat :=
  match c.head? with
  | some e => (e.1 + step) % U32_MOD % MILLIS_TOTAL
  | none => target

/-- The prefetch loop of src/render.rs lines 51-62: while the cache holds
fewer than `PRE_BUFFERED_IMAGES` entries, load the next slot's image and push
it to the front; a failed load aborts the whole render call (`?`), leaving the
cache as accumulated so far (carried in the `.error`).  The loop adds one
entry per iteration, so `PRE_BUFFERED_IMAGES` fuel always suffices. -/
def fillFrom (load : String → Option Frame) (dir tmpl : String) (step target : Nat) :
    Nat → Cache → Except Cache Cache
  | 0, c => .ok c
  | fuel + 1, c =>
    if c.length < PRE_BUFFERED_IMAGES then
      match load (loadClockImagePath dir tmpl (nextLoadSlot step target c)) with
      | none => .error c
      | some img => fillFrom load dir tmpl step target fuel ((nextLoadSlot step target c, img) :: c)
    else .ok c

/-- The cache-advancement portion of a render tick (eviction then prefetch);
the returned `Bool` is the `redraw` flag, set exactly when the prefetch loop
ran at least once. -/
def cacheAdvance (load : String → Option Frame) (dir tmpl : String) (step target : Nat)
    (c : Cache) : Except Cache (Cache × Bool) :=
  let c1 := evictStale step target c
  match fillFrom load dir tmpl step target PRE_BUFFERED_IMAGES c1 with
  | .error c' => .error c'
  | .ok c2 => .ok (c2, decide (c1.length < PRE_BUFFERED_IMAGES))

/-- The `as u8` cast of an `f32`: truncate toward zero, saturating at 0 and
255.  For nonnegative inputs truncation is the floor; `Int.toNat` clamps the
negative case to 0. -/
def ratToU8 (q : ℚ) : Nat := min 255 q.floor.toNat

/-- `Hsv::<f32, Srgb>::new(Deg h, s, v).to_rgb::<f32>()`: the standard
sector-based HSV-to-RGB conversion used by the `color` crate, over rationals. -/
def hsvToRgb (h s v : ℚ) : Tint :=
  let i : ℤ := (h / 60).floor
  let f : ℚ := h / 60 - (i : ℚ)
  let p := v * (1 - s)
  let q := v * (1 - f * s)
  let t := v * (1 - (1 - f) * s)
  match (i % 6).toNat with
  | 0 => (v, t, p)
  | 1 => (q, v, p)
  | 2 => (p, v, t)
  | 3 => (p, q, v)
  | 4 => (t, p, v)
  | _ => (v, p, q)

/-- The rainbow tint of a tick: hue `current_millis / MILLIS_TOTAL * 360`
degrees, saturation 1, value 1. -/
def rainbowTint (millis : Nat) : Tint :=
  hsvToRgb ((millis : ℚ) / (MILLIS_TOTAL : ℚ) * 360) 1 1

/-- `color[k]` for the `[f32; 3]` tint array.  The compositor only indexes it
with `idx % 4` on non-alpha bytes, so the index is always 0, 1 or 2 (index 3
would be an out-of-bounds panic in the source and is unreachable). -/
def tintComp (c : Tint) (k : Nat) : ℚ :=
  match k with
  | 0 => c.1
  | 1 => c.2.1
  | _ => c.2.2

/-- One output byte of the tinting loop: alpha bytes (`(idx + 1) % 4 == 0`)
are forced to 255, other bytes are `(*src as f32 * color[idx % 4]) as u8`. -/
def tintByte (c : Tint) (idx src : Nat) : Nat :=
  if (idx + 1) % 4 = 0 then 255 else ratToU8 ((src : ℚ) * tintComp c (idx % 4))

/-- The tinting loop `frame_mut().iter_mut().zip(frame.iter()).enumerate()`:
walks the output buffer and the source frame in lockstep (stopping at the
shorter), rewriting each visited output byte; `idx` is the running enumerate
index. -/
def tintMap (c : Tint) : Nat → List Nat → List Nat → List Nat
  | _, [], _ => []
  | _, buf, [] => buf
  | idx, _ :: buf, srcByte :: frame => tintByte c idx srcByte :: tintMap c (idx + 1) buf frame

/-- The compositing step: with a resolved tint, run the tinting loop; with no
tint, `copy_from_slice` the frame over the buffer (the source call panics
unless the two buffers have equal length — both are width*height*4 — so the
copy is modelled as returning the frame). -/
def compositeBuf (tint : Option Tint) (buf frame : List Nat) : List Nat :=
  match tint with
  | some c => tintMap c 0 buf frame
  | none => frame

/-- The `ClockImage` renderer state shared by src/main.rs and src/render.rs
(`dir`, `file_template`, `clock_step`, `buffered_images`, `rainbow`, `color`). -/
structure ClockImageState where
  dir : String
  fileTemplate : String
  clockStep : Nat
  bufferedImages : Cache
  rainbow : Bool
  color : Option Tint
deriving DecidableEq

/-- `back().unwrap().1`: the frame of the back-most cache entry.  After a
successful `cacheAdvance` the cache is non-empty, so the `unwrap` cannot
panic there; the empty case is given a default. -/
def backFrameOf (c : Cache) : Frame :=
  match c.getLast? with
  | some e => e.2
  | none => []

/-- One render tick of src/render.rs `BackgroundRenderer::render` in
`ClockImage` mode: read the clock (outer `none` = division-by-zero panic),
advance the cache (`.error` = failed image load aborting the tick), and only
when the prefetch loop actually loaded something (`redraw`) recompute the tint
and composite the back frame into the buffer; otherwise the buffer is left
untouched.  Returns the new cache and the output buffer. -/
def renderTick (load : String → Option Frame) (st : ClockImageState) (h m s ms : Nat)
    (buf : List Nat) : Option (Except Cache (Cache × List Nat)) :=
  match clockMillisOpt st.clockStep h m s ms with
  | none => none
  | some t =>
    match cacheAdvance load st.dir st.fileTemplate st.clockStep t st.bufferedImages with
    | .error c => some (.error c)
    | .ok (c, redraw) =>
      if redraw then
        let col := if st.rainbow then some (rainbowTint t) else st.color
        some (.ok (c, compositeBuf col buf (backFrameOf c)))
      else some (.ok (c, buf))

/-- The cache pre-fill of the legacy renderer construction (src/main.rs lines
116-119): `for _ in 0..PRE_BUFFERED_IMAGES { push_front((millis, image.clone())) }`. -/
def legacyInitCache (m0 : Nat) (img : Frame) : Cache :=
  (List.range PRE_BUFFERED_IMAGES).foldl (fun c _ => (m0, img) :: c) []

/-- `Background::into_renderer` for the `ClockImage` command (src/main.rs
lines 83-129): validate `clock_color`, read the clock, load the initial image
and pre-fill the cache with ten copies of it.  The outer `Option` is the
division-by-zero panic of `clock_millis`; the inner `Except` is the `anyhow`
error (color validation failure or failed image load). -/
def intoRendererClock (load : String → Option Frame) (dir tmpl : String) (step : Nat)
    (clockColor : Option String) (h m s ms : Nat) : Option (Except Unit ClockImageState) :=
  match parseClockColor clockColor with
  | .error _ => some (.error ())
  | .ok (rainbow, color) =>
    match clockMillisOpt step h m s ms with
    | none => none
    | some m0 =>
      match load (loadClockImagePath dir tmpl m0) with
      | none => some (.error ())
      | some img =>
        some (.ok ⟨dir, tmpl, step, legacyInitCache m0 img, rainbow, color⟩)

/-- The offset target slot of the legacy render tick (src/main.rs lines
162-164): `(clock_millis(step) + step * (PRE_BUFFERED_IMAGES - 1)) % MILLIS_TOTAL`,
with the `u32` multiplication/addition wrapping at `2^32`. -/
def legacyOffsetMillis (step h m s ms : Nat) : Nat :=
  (clockMillisAt step h m s ms + step * 9) % U32_MOD % MILLIS_TOTAL

/-- The staleness test of the legacy render tick (src/main.rs line 168)
computes `current_millis - buffered_images.front().unwrap().0` in `u32`
arithmetic; this proposition says that subtraction underflows (the front slot
exceeds the offset target). -/
def legacyFrontUnderflow (st : ClockImageState) (h m s ms : Nat) : Prop :=
  ∃ e, st.bufferedImages.head? = some e ∧
    legacyOffsetMillis st.clockStep h m s ms < e.1

section ClockTheorems

/-- C5: for every positive step and wall-clock reading within the 12-hour
cycle, `clock_millis` returns the raw millisecond count
`(hour % 12)*3600000 + minute*60000 + second*1000 + subsecond_ms` floored to
the nearest multiple of `step`, which is a multiple of `step` lying in
`[0, MILLIS_TOTAL)`. -/
theorem clock_millis_slot_spec (step h m s ms : Nat) (hstep : 0 < step)
    (hm : m ≤ 59) (hs : s ≤ 59) (hms : ms ≤ 999) :
    clockMillisOpt step h m s ms
      = some (((h % 12) * 3600000 + m * 60000 + s * 1000 + ms) / step * step) ∧
    clockMillisAt step h m s ms % step = 0 ∧
    clockMillisAt step h m s ms < MILLIS_TOTAL := by
  have hne : step ≠ 0 := Nat.pos_iff_ne_zero.mp hstep
  refine ⟨by simp [clockMillisOpt, clockMillisAt, hne, MILLIS_PER_HOUR,
    MILLIS_PER_MINUTE, MILLIS_PER_SECOND], Nat.mul_mod_left _ _, ?_⟩
  have h12 : h % 12 ≤ 11 := Nat.le_of_lt_succ (Nat.mod_lt h (by norm_num))
  have hmul : (h % 12) * MILLIS_PER_HOUR ≤ 11 * MILLIS_PER_HOUR :=
    Nat.mul_le_mul_right _ h12
  have hraw : (h % 12) * MILLIS_PER_HOUR + m * MILLIS_PER_MINUTE
      + s * MILLIS_PER_SECOND + ms < MILLIS_TOTAL := by
    simp only [MILLIS_PER_HOUR, MILLIS_PER_MINUTE, MILLIS_PER_SECOND, MILLIS_TOTAL] at *
    omega
  calc clockMillisAt step h m s ms
      ≤ (h % 12) * MILLIS_PER_HOUR + m * MILLIS_PER_MINUTE
        + s * MILLIS_PER_SECOND + ms := Nat.div_mul_le_self _ _
    _ < MILLIS_TOTAL := hraw

/-- Witness for `clock_millis_slot_spec` at 23:59:59.999 with step 100. -/
theorem clock_millis_slot_spec_witness :
    clockMillisOpt 100 23 59 59 999
      = some (((23 % 12) * 3600000 + 59 * 60000 + 59 * 1000 + 999) / 100 * 100) ∧
    clockMillisAt 100 23 59 59 999 % 100 = 0 ∧
    clockMillisAt 100 23 59 59 999 < MILLIS_TOTAL :=
  clock_millis_slot_spec 100 23 59 59 999 (by decide) (by decide) (by decide) (by decide)

/-- C9: `clock_millis` divides by `clock_step` unguarded: it returns normally
for every `clock_step ≥ 1` and any wall-clock reading, and panics with a
division by zero (modelled as `none`) when `clock_step = 0`. -/
theorem clock_millis_div_by_zero :
    (∀ step h m s ms, 1 ≤ step →
      clockMillisOpt step h m s ms = some (clockMillisAt step h m s ms)) ∧
    (∀ h m s ms, clockMillisOpt 0 h m s ms = none) := by
  constructor
  · intro step h m s ms hstep
    simp [clockMillisOpt, Nat.pos_iff_ne_zero.mp hstep]
  · intro h m s ms
    simp [clockMillisOpt]

/-- Witness for `clock_millis_div_by_zero` at step 1. -/
theorem clock_millis_div_by_zero_witness :
    clockMillisOpt 1 0 0 0 0 = some (clockMillisAt 1 0 0 0 0) :=
  clock_millis_div_by_zero.1 1 0 0 0 0 (by decide)

/-- C8: the clock-image path is
`{dir}/{slot / 3600000}/{template with %m replaced by the slot zero-padded to
8 digits}`; the hour bucket is at most 11 for every slot in the cycle, and
slot 12345700 with template `frame_%m.png` resolves to
`dir/3/frame_12345700.png`. -/
theorem clock_image_path_spec :
    (∀ millis, millis < MILLIS_TOTAL → millis / MILLIS_PER_HOUR ≤ 11) ∧
    (∀ dir tmpl millis, loadClockImagePath dir tmpl millis
      = dir ++ "/" ++ toString (millis / MILLIS_PER_HOUR) ++ "/"
        ++ strReplace tmpl "%m" (natPad8 millis)) ∧
    natPad8 7 = "00000007" ∧
    loadClockImagePath "dir" "frame_%m.png" 12345700 = "dir/3/frame_12345700.png" := by
  refine ⟨?_, fun dir tmpl millis => rfl, by decide, by decide⟩
  intro millis hmil
  have hpos : 0 < MILLIS_PER_HOUR := by norm_num [MILLIS_PER_HOUR,
    MILLIS_PER_MINUTE, MILLIS_PER_SECOND]
  have h12 : millis / MILLIS_PER_HOUR < 12 :=
    (Nat.div_lt_iff_lt_mul hpos).mpr (by
      have : MILLIS_TOTAL = 12 * MILLIS_PER_HOUR := rfl
      omega)
  omega

/-- Witness for `clock_image_path_spec` at the last slot of the cycle. -/
theorem clock_image_path_spec_witness : 43199999 / MILLIS_PER_HOUR ≤ 11 :=
  clock_image_path_spec.1 43199999 (by decide)

end ClockTheorems

section CompositorTheorems

/-- Index-wise behaviour of the tinting loop, for an arbitrary starting
enumerate index. -/
theorem tintMap_getD (c : Tint) :
    ∀ (k : Nat) (buf frame : List Nat) (i : Nat), i < buf.length → i < frame.length →
      (tintMap c k buf frame).getD i 0 = tintByte c (k + i) (frame.getD i 0) := by
  intro k buf
  induction buf generalizing k with
  | nil => intro frame i hb _; simp at hb
  | cons b bs ih =>
    intro frame i hb hf
    match frame with
    | [] => simp at hf
    | f :: fs =>
      match i with
      | 0 => simp [tintMap]
      | i + 1 =>
        have hb' : i < bs.length := by simpa using hb
        have hf' : i < fs.length := by simpa using hf
        have := ih (k + 1) fs i hb' hf'
        simpa [tintMap, Nat.add_assoc, Nat.add_comm 1 i] using this

/-- C7: compositing with a resolved tint `[r,g,b]` multiplies each R, G, B
source byte by the matching component and truncates (`as u8`), forces every
alpha byte (index ≡ 3 mod 4) to 255 regardless of the source alpha, and
compositing with no tint copies the frame byte-for-byte, alpha included. -/
theorem composite_tint_spec :
    (∀ (c : Tint) (buf frame : List Nat) (i : Nat), i < buf.length → i < frame.length →
      (compositeBuf (some c) buf frame).getD i 0
        = if (i + 1) % 4 = 0 then 255
          else ratToU8 ((frame.getD i 0 : ℚ) * tintComp c (i % 4))) ∧
    (∀ buf frame : List Nat, compositeBuf none buf frame = frame) := by
  constructor
  · intro c buf frame i hb hf
    have := tintMap_getD c 0 buf frame i hb hf
    simpa [compositeBuf, tintByte] using this
  · intro buf frame
    rfl

/-- Witness for `composite_tint_spec` on a 1-pixel buffer: the alpha byte of
a pixel with source alpha 7 is forced to 255. -/
theorem composite_tint_spec_witness :
    (compositeBuf (some (1, 1/2, 1/4)) [9, 9, 9, 9] [8, 100, 200, 7]).getD 3 0
      = if (3 + 1) % 4 = 0 then 255
        else ratToU8 ((([8, 100, 200, 7] : List Nat).getD 3 0 : ℚ) * tintComp (1, 1/2, 1/4) (3 % 4)) :=
  composite_tint_spec.1 (1, 1/2, 1/4) [9, 9, 9, 9] [8, 100, 200, 7] 3 (by decide) (by decide)

end CompositorTheorems

section EvictionTheorems

/-- The eviction loop is `dropWhile` on the reversed deque. -/
theorem evictRev_eq_dropWhile (step target : Nat) :
    ∀ c : Cache, evictRev step target c
      = c.dropWhile (fun e => decide (step ≤ absDiff e.1 target)) := by
  intro c
  induction c with
  | nil => rfl
  | cons e rest ih =>
    by_cases h : step ≤ absDiff e.1 target
    · simp [evictRev, List.dropWhile, h, ih]
    · simp [evictRev, List.dropWhile, h]

/-- C2 (amended): the advancement evicts from the back exactly while the back
entry's absolute difference `|slot - target|` (`u32::abs_diff`, no modular
reduction) is at least `step`: the cache splits into the kept prefix and a
dropped suffix whose entries all have absolute difference `≥ step`, and the
surviving back entry (if any) has absolute difference `< step`. -/
theorem evict_absDiff_characterization (step target : Nat) (c : Cache) :
    ∃ dropped, c = evictStale step target c ++ dropped ∧
      (∀ e ∈ dropped, step ≤ absDiff e.1 target) ∧
      (∀ e, (evictStale step target c).getLast? = some e → absDiff e.1 target < step) := by
  classical
  set p : Entry → Bool := fun e => decide (step ≤ absDiff e.1 target) with hp
  refine ⟨(c.reverse.takeWhile p).reverse, ?_, ?_, ?_⟩
  · have hsplit : c.reverse.takeWhile p ++ c.reverse.dropWhile p = c.reverse :=
      List.takeWhile_append_dropWhile p c.reverse
    have := congrArg List.reverse hsplit
    simp only [List.reverse_append, List.reverse_reverse] at this
    simp only [evictStale, evictRev_eq_dropWhile, hp]
    exact this.symm
  · intro e he
    have he' : e ∈ c.reverse.takeWhile p := by simpa using he
    have := List.mem_takeWhile_imp he'
    simpa [hp] using this
  · intro e he
    have hhead : (c.reverse.dropWhile p).head? = some e := by
      have : (evictStale step target c).getLast?
          = (c.reverse.dropWhile p).head? := by
        simp [evictStale, evictRev_eq_dropWhile, hp, List.getLast?_reverse]
      rw [← this]
      exact he
    have := List.head?_dropWhile_not p c.reverse
    rw [hhead] at this
    simpa [hp] using this

/-- Witness for `evict_absDiff_characterization` on a two-entry cache with a
stale back entry. -/
theorem evict_absDiff_characterization_witness :
    ∃ dropped, [(300, ([5] : Frame)), (100, [6])]
        = evictStale 100 300 [(300, [5]), (100, [6])] ++ dropped ∧
      (∀ e ∈ dropped, 100 ≤ absDiff e.1 300) ∧
      (∀ e, (evictStale 100 300 [(300, ([5] : Frame)), (100, [6])]).getLast? = some e →
        absDiff e.1 300 < 100) :=
  evict_absDiff_characterization 100 300 [(300, [5]), (100, [6])]

/-- C2 (counterexample): the claim's modular-distance eviction rule fails on
the code.  At the cycle boundary the entry with slot `43199999` sits at
modular distance 1 from target slot 0 — less than the step 100, so by the
claim it must never be evicted — yet the code's `abs_diff` test evicts it. -/
theorem evict_cycleDist_counterexample :
    evictStale 100 0 [(43199999, [1])] = [] ∧
    cycleDist 43199999 0 = 1 ∧
    1 < 100 := by
  refine ⟨by decide, by decide, by decide⟩

end EvictionTheorems

section PrefetchTheorems

/-- The slot the prefetch loop would load next, as a function of the slot
sequence alone (the loaded frames do not influence it). -/
def nextSlotVal (step target : Nat) (slots : List Nat) : Nat :=
  match slots with
  | [] => target
  | a :: _ => (a + step) % U32_MOD % MILLIS_TOTAL

/-- The slot sequence after `n` pushes of the prefetch loop. -/
def pushSlots (step target : Nat) : Nat → List Nat → List Nat
  | 0, slots => slots
  | n + 1, slots => pushSlots step target n (nextSlotVal step target slots :: slots)

/-- The slots of `n` consecutive steps ending at the front, front first:
`[(t + (n-1)·step) % cycle, ..., (t + step) % cycle, t % cycle]`. -/
def cycleSlots (step target : Nat) (n : Nat) : List Nat :=
  (List.range n).reverse.map (fun i => (target + i * step) % MILLIS_TOTAL)

theorem nextLoadSlot_eq_map (step target : Nat) (c : Cache) :
    nextLoadSlot step target c = nextSlotVal step target (c.map Prod.fst) := by
  cases c <;> rfl

theorem cycleSlots_succ (step target n : Nat) :
    cycleSlots step target (n + 1)
      = (target + n * step) % MILLIS_TOTAL :: cycleSlots step target n := by
  simp [cycleSlots, List.range_succ]

theorem cycleSlots_length (step target n : Nat) :
    (cycleSlots step target n).length = n := by
  simp [cycleSlots]

theorem cycleSlots_step_eq (step target : Nat) (hstep : step < MILLIS_TOTAL) (j : Nat) :
    (target + (j + 1) * step) % MILLIS_TOTAL
      = ((target + j * step) % MILLIS_TOTAL + step) % U32_MOD % MILLIS_TOTAL := by
  have hC : 0 < MILLIS_TOTAL := by norm_num [MILLIS_TOTAL, MILLIS_PER_HOUR,
    MILLIS_PER_MINUTE, MILLIS_PER_SECOND]
  have hlt : (target + j * step) % MILLIS_TOTAL + step < U32_MOD := by
    have h1 : (target + j * step) % MILLIS_TOTAL < MILLIS_TOTAL := Nat.mod_lt _ hC
    have : MILLIS_TOTAL + MILLIS_TOTAL < U32_MOD := by
      norm_num [MILLIS_TOTAL, MILLIS_PER_HOUR, MILLIS_PER_MINUTE, MILLIS_PER_SECOND, U32_MOD]
    omega
  rw [Nat.mod_eq_of_lt hlt, Nat.mod_add_mod]
  ring_nf

theorem pushSlots_cycle (step target : Nat) (hstep : step < MILLIS_TOTAL) :
    ∀ n k, 0 < k →
      pushSlots step target n (cycleSlots step target k) = cycleSlots step target (k + n) := by
  intro n
  induction n with
  | zero => intro k _; rfl
  | succ n ih =>
    intro k hk
    obtain ⟨j, rfl⟩ := Nat.exists_eq_succ_of_ne_zero (Nat.pos_iff_ne_zero.mp hk)
    have hhead : nextSlotVal step target (cycleSlots step target (j + 1))
        = (target + (j + 1) * step) % MILLIS_TOTAL := by
      rw [cycleSlots_succ]
      simp only [nextSlotVal]
      exact (cycleSlots_step_eq step target hstep j).symm
    calc pushSlots step target (n + 1) (cycleSlots step target (j + 1))
        = pushSlots step target n
            (nextSlotVal step target (cycleSlots step target (j + 1))
              :: cycleSlots step target (j + 1)) := rfl
      _ = pushSlots step target n (cycleSlots step target (j + 2)) := by
            rw [hhead, ← cycleSlots_succ]
      _ = cycleSlots step target (j + 2 + n) := ih (j + 2) (by omega)
      _ = cycleSlots step target (j + 1 + (n + 1)) := by ring_nf

theorem pushSlots_from_nil (step target : Nat) (hstep : step < MILLIS_TOTAL)
    (ht : target < MILLIS_TOTAL) (n : Nat) :
    pushSlots step target (n + 1) [] = cycleSlots step target (n + 1) := by
  have h1 : (cycleSlots step target 1) = [target] := by
    simp [cycleSlots, List.range_succ, Nat.mod_eq_of_lt ht]
  calc pushSlots step target (n + 1) []
      = pushSlots step target n [target] := rfl
    _ = pushSlots step target n (cycleSlots step target 1) := by rw [h1]
    _ = cycleSlots step target (1 + n) := pushSlots_cycle step target hstep n 1 (by omega)
    _ = cycleSlots step target (n + 1) := by ring_nf

theorem cycleSlots_nodup (step target k : Nat) (hstep : 0 < step)
    (hk : (k - 1) * step < MILLIS_TOTAL) :
    (cycleSlots step target k).Nodup := by
  have haux : ∀ i j, i ∈ List.range k → j ∈ List.range k → i ≤ j →
      (target + i * step) % MILLIS_TOTAL = (target + j * step) % MILLIS_TOTAL → i = j := by
    intro i j hi hj hij heq
    have hj' : j < k := List.mem_range.mp hj
    have hmod : i * step ≡ j * step [MOD MILLIS_TOTAL] :=
      (Nat.ModEq.add_left_cancel' target heq)
    have hdvd : MILLIS_TOTAL ∣ j * step - i * step :=
      (Nat.modEq_iff_dvd' (Nat.mul_le_mul_right _ hij)).mp hmod
    have hsub : j * step - i * step = (j - i) * step := (Nat.sub_mul j i step).symm
    rw [hsub] at hdvd
    by_contra hne
    have hpos : 0 < (j - i) * step := by
      have : 0 < j - i := by omega
      exact Nat.mul_pos this hstep
    have hle : MILLIS_TOTAL ≤ (j - i) * step := Nat.le_of_dvd hpos hdvd
    have hlt : (j - i) * step ≤ (k - 1) * step := Nat.mul_le_mul_right _ (by omega)
    omega
  refine List.Nodup.map_on ?_ (by simp [List.nodup_range])
  intro i hi j hj heq
  simp only [List.mem_reverse] at hi hj
  rcases Nat.le_total i j with hij | hij
  · exact haux i j hi hj hij heq
  · exact (haux j i hj hi hij heq.symm).symm

theorem cycleSlots_chain (step target : Nat) (hstep : step < MILLIS_TOTAL) :
    ∀ k, List.Chain' (fun a b => a = (b + step) % U32_MOD % MILLIS_TOTAL)
      (cycleSlots step target k) := by
  intro k
  induction k with
  | zero => simp [cycleSlots]
  | succ j ih =>
    match j, ih with
    | 0, _ => simp [cycleSlots, List.range_succ]
    | j + 1, ih =>
      rw [cycleSlots_succ]
      rw [cycleSlots_succ] at ih ⊢
      exact List.Chain'.cons (cycleSlots_step_eq step target hstep j) ih

theorem fill_ok_len (load : String → Option Frame) (dir tmpl : String) (step target : Nat) :
    ∀ (fuel : Nat) (c c' : Cache),
      fillFrom load dir tmpl step target fuel c = .ok c' →
      c'.length ≤ max c.length PRE_BUFFERED_IMAGES := by
  intro fuel
  induction fuel with
  | zero =>
    intro c c' h
    simp only [fillFrom] at h
    cases h
    exact Nat.le_max_left _ _
  | succ fuel ih =>
    intro c c' h
    simp only [fillFrom] at h
    by_cases hlen : c.length < PRE_BUFFERED_IMAGES
    · rw [if_pos hlen] at h
      cases hload : load (loadClockImagePath dir tmpl (nextLoadSlot step target c)) with
      | none => rw [hload] at h; cases h
      | some img =>
        rw [hload] at h
        have := ih _ _ h
        simp only [List.length_cons] at this
        omega
    · rw [if_neg hlen] at h
      cases h
      exact Nat.le_max_left _ _

theorem fill_ok_exact (load : String → Option Frame) (dir tmpl : String) (step target : Nat) :
    ∀ (fuel : Nat) (c c' : Cache),
      c.length + fuel = PRE_BUFFERED_IMAGES →
      fillFrom load dir tmpl step target fuel c = .ok c' →
      c'.length = PRE_BUFFERED_IMAGES ∧
      c'.map Prod.fst = pushSlots step target fuel (c.map Prod.fst) := by
  intro fuel
  induction fuel with
  | zero =>
    intro c c' hlen h
    simp only [fillFrom] at h
    cases h
    exact ⟨by omega, rfl⟩
  | succ fuel ih =>
    intro c c' hlen h
    have hlt : c.length < PRE_BUFFERED_IMAGES := by omega
    simp only [fillFrom, if_pos hlt] at h
    cases hload : load (loadClockImagePath dir tmpl (nextLoadSlot step target c)) with
    | none => rw [hload] at h; cases h
    | some img =>
      rw [hload] at h
      have := ih ((nextLoadSlot step target c, img) :: c) c' (by simp; omega) h
      refine ⟨this.1, ?_⟩
      rw [this.2]
      simp only [pushSlots, List.map_cons, nextLoadSlot_eq_map]

theorem evictStale_length_le (step target : Nat) (c : Cache) :
    (evictStale step target c).length ≤ c.length := by
  simp only [evictStale, evictRev_eq_dropWhile, List.length_reverse]
  calc (List.dropWhile _ c.reverse).length
      ≤ c.reverse.length := (List.dropWhile_sublist _).length_le
    _ = c.length := List.length_reverse c

end PrefetchTheorems

section CacheInvariantTheorems

/-- C3 (counterexample): the claim fails at renderer-state construction.
Constructing the `ClockImage` renderer at wall-clock midnight with step 100
pre-fills the cache with ten entries that all carry slot 0 — duplicate slots,
adjacent entries differing by 0 rather than by `step_ms`. -/
theorem construction_duplicate_counterexample :
    intoRendererClock (fun _ => some [7]) "d" "f_%m.png" 100 none 0 0 0 0
      = some (.ok ⟨"d", "f_%m.png", 100, legacyInitCache 0 [7], false, none⟩) ∧
    (legacyInitCache 0 [7]).length = 10 ∧
    ¬ ((legacyInitCache 0 [7]).map Prod.fst).Nodup := by
  exact ⟨rfl, rfl, by decide⟩

/-- C3 (amended): renderer-state construction pre-fills the cache with
exactly `K = 10` copies of one entry, so it holds ten entries that all share
one slot (duplicates).  A render-tick advancement, by contrast, keeps the
cache at no more than `K = 10` entries whenever it starts from at most 10,
and an advancement from an empty cache (with `0 < step`, `9·step` inside the
cycle and an in-cycle target) produces exactly 10 entries with pairwise
distinct slots in which every adjacent pair differs by exactly `step`
(taken `mod 2^32 mod cycle`, the code's own wrap). -/
theorem cache_bound_and_fresh_invariants :
    (∀ (m0 : Nat) (img : Frame),
      legacyInitCache m0 img = List.replicate 10 (m0, img)) ∧
    (∀ (load : String → Option Frame) (dir tmpl : String) (step target : Nat)
        (c c' : Cache) (r : Bool), c.length ≤ 10 →
      cacheAdvance load dir tmpl step target c = .ok (c', r) → c'.length ≤ 10) ∧
    (∀ (load : String → Option Frame) (dir tmpl : String) (step target : Nat)
        (c' : Cache) (r : Bool),
      0 < step → 9 * step < MILLIS_TOTAL → target < MILLIS_TOTAL →
      cacheAdvance load dir tmpl step target [] = .ok (c', r) →
      r = true ∧ c'.length = 10 ∧ (c'.map Prod.fst).Nodup ∧
      List.Chain' (fun a b : Entry => a.1 = (b.1 + step) % U32_MOD % MILLIS_TOTAL) c') := by
  refine ⟨fun m0 img => rfl, ?_, ?_⟩
  · intro load dir tmpl step target c c' r hc hadv
    simp only [cacheAdvance] at hadv
    cases hfill : fillFrom load dir tmpl step target PRE_BUFFERED_IMAGES
        (evictStale step target c) with
    | error c'' => rw [hfill] at hadv; cases hadv
    | ok c'' =>
      rw [hfill] at hadv
      cases hadv
      have h1 := fill_ok_len load dir tmpl step target _ _ _ hfill
      have h2 := evictStale_length_le step target c
      have : PRE_BUFFERED_IMAGES = 10 := rfl
      omega
  · intro load dir tmpl step target c' r hstep h9 ht hadv
    have hCstep : step < MILLIS_TOTAL := by omega
    simp only [cacheAdvance] at hadv
    have hevict : evictStale step target ([] : Cache) = [] := rfl
    rw [hevict] at hadv
    cases hfill : fillFrom load dir tmpl step target PRE_BUFFERED_IMAGES ([] : Cache) with
    | error cfill => rw [hfill] at hadv; cases hadv
    | ok cfill =>
      rw [hfill] at hadv
      obtain ⟨hc, hr⟩ : cfill = c' ∧ r = decide (([] : Cache).length < PRE_BUFFERED_IMAGES) := by
        cases hadv; exact ⟨rfl, rfl⟩
      subst hc
      have hrt : r = true := by simpa using hr
      have hexact := fill_ok_exact load dir tmpl step target PRE_BUFFERED_IMAGES [] cfill
        (by simp) hfill
      have hslots : cfill.map Prod.fst = cycleSlots step target 10 := by
        rw [hexact.2]
        exact pushSlots_from_nil step target hCstep ht 9
      refine ⟨hrt, hexact.1, ?_, ?_⟩
      · rw [hslots]
        exact cycleSlots_nodup step target 10 hstep (by omega)
      · have := cycleSlots_chain step target hCstep 10
        rw [← hslots] at this
        exact (List.chain'_map Prod.fst).mp this

/-- Witness for `cache_bound_and_fresh_invariants`: a fresh advancement from
the empty cache at target slot 300 with step 100 and an always-succeeding
loader. -/
theorem cache_bound_and_fresh_invariants_witness :
    (true : Bool) = true ∧
    ([(1200, ([5] : Frame)), (1100, [5]), (1000, [5]), (900, [5]), (800, [5]),
      (700, [5]), (600, [5]), (500, [5]), (400, [5]), (300, [5])] : Cache).length = 10 ∧
    (([(1200, ([5] : Frame)), (1100, [5]), (1000, [5]), (900, [5]), (800, [5]),
      (700, [5]), (600, [5]), (500, [5]), (400, [5]), (300, [5])] : Cache).map Prod.fst).Nodup ∧
    List.Chain' (fun a b : Entry => a.1 = (b.1 + 100) % U32_MOD % MILLIS_TOTAL)
      [(1200, ([5] : Frame)), (1100, [5]), (1000, [5]), (900, [5]), (800, [5]),
       (700, [5]), (600, [5]), (500, [5]), (400, [5]), (300, [5])] :=
  cache_bound_and_fresh_invariants.2.2 (fun _ => some [5]) "d" "f_%m.png" 100 300
    _ _ (by decide) (by decide) (by decide) (by decide)

end CacheInvariantTheorems

section LoadFailureTheorems

/-- On a failed load, the prefetch loop leaves exactly the entries it had
already completed: the input cache plus a block of fully-loaded pushed
entries, with the loader failing on the very next slot. -/
theorem fill_error_shape (load : String → Option Frame) (dir tmpl : String)
    (step target : Nat) :
    ∀ (fuel : Nat) (c c' : Cache),
      fillFrom load dir tmpl step target fuel c = .error c' →
      ∃ pushed, c' = pushed ++ c ∧
        (∀ e ∈ pushed, load (loadClockImagePath dir tmpl e.1) = some e.2) ∧
        load (loadClockImagePath dir tmpl (nextLoadSlot step target c')) = none ∧
        c'.length < PRE_BUFFERED_IMAGES := by
  intro fuel
  induction fuel with
  | zero =>
    intro c c' h
    simp only [fillFrom] at h
    exact Except.noConfusion h
  | succ fuel ih =>
    intro c c' h
    simp only [fillFrom] at h
    by_cases hlen : c.length < PRE_BUFFERED_IMAGES
    · rw [if_pos hlen] at h
      cases hload : load (loadClockImagePath dir tmpl (nextLoadSlot step target c)) with
      | none =>
        rw [hload] at h
        cases h
        exact ⟨[], by simp, by simp, hload, hlen⟩
      | some img =>
        rw [hload] at h
        obtain ⟨pushed, hsplit, hmem, hnext, hlt⟩ := ih _ _ h
        refine ⟨pushed ++ [(nextLoadSlot step target c, img)], by simp [hsplit], ?_, hnext, hlt⟩
        intro e he
        rcases List.mem_append.mp he with he | he
        · exact hmem e he
        · rcases List.mem_singleton.mp he with rfl
          exact hload
    · rw [if_neg hlen] at h
      cases h

/-- C4: when an image load fails during cache prefetch, no partial frame is
pushed and the error propagates out of the render tick: the tick returns the
loader's error, and the cache it carries is exactly the post-eviction cache
extended by the fully-loaded frames of the successful loads of this tick
(every pushed entry's frame is precisely what the loader returned for its
slot, and the loader failed on the next slot to fetch). -/
theorem load_failure_leaves_consistent_cache (load : String → Option Frame)
    (st : ClockImageState) (h m s ms : Nat) (buf : List Nat) (c' : Cache)
    (hr : renderTick load st h m s ms buf = some (.error c')) :
    ∃ t, clockMillisOpt st.clockStep h m s ms = some t ∧
      ∃ pushed, c' = pushed ++ evictStale st.clockStep t st.bufferedImages ∧
        (∀ e ∈ pushed, load (loadClockImagePath st.dir st.fileTemplate e.1) = some e.2) ∧
        load (loadClockImagePath st.dir st.fileTemplate
          (nextLoadSlot st.clockStep t c')) = none ∧
        c'.length < PRE_BUFFERED_IMAGES := by
  simp only [renderTick] at hr
  cases hclock : clockMillisOpt st.clockStep h m s ms with
  | none =>
    simp only [hclock] at hr
    exact Option.noConfusion hr
  | some t =>
    simp only [hclock] at hr
    refine ⟨t, rfl, ?_⟩
    cases hadv : cacheAdvance load st.dir st.fileTemplate st.clockStep t st.bufferedImages with
    | error cerr =>
      simp only [hadv, Option.some.injEq] at hr
      have hc : cerr = c' := by
        cases hr
        rfl
      subst hc
      simp only [cacheAdvance] at hadv
      cases hfill : fillFrom load st.dir st.fileTemplate st.clockStep t PRE_BUFFERED_IMAGES
          (evictStale st.clockStep t st.bufferedImages) with
      | error cfill =>
        rw [hfill] at hadv
        have hcc : cfill = cerr := by
          cases hadv
          rfl
        subst hcc
        exact fill_error_shape load st.dir st.fileTemplate st.clockStep t _ _ _ hfill
      | ok cfill => rw [hfill] at hadv; cases hadv
    | ok pair =>
      obtain ⟨cnew, r⟩ := pair
      simp only [hadv] at hr
      cases r <;> simp at hr

/-- Witness for `load_failure_leaves_consistent_cache`: starting from an
empty cache at slot 300 with a loader failing on the slot-500 file, the tick
errors with exactly the two successfully loaded frames. -/
theorem load_failure_leaves_consistent_cache_witness :
    ∃ t, clockMillisOpt 100 0 0 0 300 = some t ∧
      ∃ pushed, ([(400, ([5] : Frame)), (300, [5])] : Cache)
          = pushed ++ evictStale 100 t [] ∧
        (∀ e ∈ pushed,
          (if loadClockImagePath "d" "f_%m.png" e.1 = "d/0/f_00000500.png" then none
            else some ([5] : Frame)) = some e.2) ∧
        (if loadClockImagePath "d" "f_%m.png"
            (nextLoadSlot 100 t [(400, ([5] : Frame)), (300, [5])]) = "d/0/f_00000500.png"
          then none else some ([5] : Frame)) = none ∧
        ([(400, ([5] : Frame)), (300, [5])] : Cache).length < PRE_BUFFERED_IMAGES :=
  load_failure_leaves_consistent_cache
    (fun p => if p = "d/0/f_00000500.png" then none else some [5])
    ⟨"d", "f_%m.png", 100, [], false, none⟩ 0 0 0 300 [] [(400, [5]), (300, [5])]
    (by decide)

end LoadFailureTheorems

section RainbowTheorems

/-- C1 (amended): in `ClockImage` mode with the Rainbow tint, a render tick
recomputes the tint from the current slot (hue `360·slot/MILLIS_TOTAL`,
saturation 1, value 1) and applies it to the output buffer only on ticks
whose prefetch loop actually loaded a frame — equivalently, whose
post-eviction cache was below capacity; on every other tick the output
buffer is left untouched. -/
theorem rainbow_tint_redraw_only (load : String → Option Frame) (st : ClockImageState)
    (h m s ms : Nat) (buf : List Nat) (t : Nat) (cnew : Cache) (r : Bool)
    (hrb : st.rainbow = true)
    (hclock : clockMillisOpt st.clockStep h m s ms = some t)
    (hadv : cacheAdvance load st.dir st.fileTemplate st.clockStep t st.bufferedImages
      = .ok (cnew, r)) :
    (r = true ↔ (evictStale st.clockStep t st.bufferedImages).length < PRE_BUFFERED_IMAGES) ∧
    renderTick load st h m s ms buf
      = some (.ok (cnew,
          if r then tintMap (rainbowTint t) 0 buf (backFrameOf cnew) else buf)) := by
  constructor
  · simp only [cacheAdvance] at hadv
    cases hfill : fillFrom load st.dir st.fileTemplate st.clockStep t PRE_BUFFERED_IMAGES
        (evictStale st.clockStep t st.bufferedImages) with
    | error cfill => rw [hfill] at hadv; cases hadv
    | ok cfill =>
      rw [hfill] at hadv
      have hrdec : r
          = decide ((evictStale st.clockStep t st.bufferedImages).length
              < PRE_BUFFERED_IMAGES) := by
        cases hadv
        rfl
      rw [hrdec]
      exact decide_eq_true_iff
  · simp only [renderTick, hclock, hadv, hrb]
    cases r <;> simp [compositeBuf]

/-- Witness for `rainbow_tint_redraw_only`: a fresh tick from the empty cache
at slot 0 loads frames and composites with the rainbow tint. -/
theorem rainbow_tint_redraw_only_witness :
    ((true : Bool) = true ↔ (evictStale 100 0 ([] : Cache)).length < PRE_BUFFERED_IMAGES) ∧
    renderTick (fun _ => some [1, 2, 3, 4]) ⟨"d", "f_%m.png", 100, [], true, none⟩
        0 0 0 0 [0, 0, 0, 0]
      = some (.ok
          ([(900, [1, 2, 3, 4]), (800, [1, 2, 3, 4]), (700, [1, 2, 3, 4]),
            (600, [1, 2, 3, 4]), (500, [1, 2, 3, 4]), (400, [1, 2, 3, 4]),
            (300, [1, 2, 3, 4]), (200, [1, 2, 3, 4]), (100, [1, 2, 3, 4]),
            (0, [1, 2, 3, 4])],
          if true then
            tintMap (rainbowTint 0) 0 [0, 0, 0, 0]
              (backFrameOf
                [(900, [1, 2, 3, 4]), (800, [1, 2, 3, 4]), (700, [1, 2, 3, 4]),
                 (600, [1, 2, 3, 4]), (500, [1, 2, 3, 4]), (400, [1, 2, 3, 4]),
                 (300, [1, 2, 3, 4]), (200, [1, 2, 3, 4]), (100, [1, 2, 3, 4]),
                 (0, [1, 2, 3, 4])])
          else [0, 0, 0, 0])) :=
  rainbow_tint_redraw_only (fun _ => some [1, 2, 3, 4])
    ⟨"d", "f_%m.png", 100, [], true, none⟩ 0 0 0 0 [0, 0, 0, 0] 0 _ true
    rfl (by decide) (by decide)

/-- C1 (counterexample): the claim fails on a tick that loads nothing.  With
a full fresh cache whose back entry is already at the current slot, the tick
leaves the output buffer untouched ([0,0,0,0], in particular its alpha byte
stays 0), whereas applying the recomputed rainbow tint would force the alpha
byte to 255. -/
theorem rainbow_tint_skipped_counterexample :
    renderTick (fun _ => some [1, 2, 3, 4])
        ⟨"d", "f_%m.png", 100,
          [(900, [1, 2, 3, 4]), (800, [1, 2, 3, 4]), (700, [1, 2, 3, 4]),
           (600, [1, 2, 3, 4]), (500, [1, 2, 3, 4]), (400, [1, 2, 3, 4]),
           (300, [1, 2, 3, 4]), (200, [1, 2, 3, 4]), (100, [1, 2, 3, 4]),
           (0, [1, 2, 3, 4])], true, none⟩ 0 0 0 0 [0, 0, 0, 0]
      = some (.ok
          ([(900, [1, 2, 3, 4]), (800, [1, 2, 3, 4]), (700, [1, 2, 3, 4]),
            (600, [1, 2, 3, 4]), (500, [1, 2, 3, 4]), (400, [1, 2, 3, 4]),
            (300, [1, 2, 3, 4]), (200, [1, 2, 3, 4]), (100, [1, 2, 3, 4]),
            (0, [1, 2, 3, 4])], [0, 0, 0, 0])) ∧
    (tintMap (rainbowTint 0) 0 ([0, 0, 0, 0] : List Nat)
        (backFrameOf
          [(900, [1, 2, 3, 4]), (800, [1, 2, 3, 4]), (700, [1, 2, 3, 4]),
           (600, [1, 2, 3, 4]), (500, [1, 2, 3, 4]), (400, [1, 2, 3, 4]),
           (300, [1, 2, 3, 4]), (200, [1, 2, 3, 4]), (100, [1, 2, 3, 4]),
           (0, [1, 2, 3, 4])])).getD 3 0 = 255 ∧
    (([0, 0, 0, 0] : List Nat).getD 3 0 = 255 → False) := by
  refine ⟨by decide, rfl, by decide⟩

end RainbowTheorems

section LegacyUnderflowTheorems

/-- The clock's output never leaves the 12-hour cycle for an in-range
wall-clock reading. -/
theorem clockMillisAt_lt_total (step h m s ms : Nat)
    (hm : m ≤ 59) (hs : s ≤ 59) (hms : ms ≤ 999) :
    clockMillisAt step h m s ms < MILLIS_TOTAL := by
  have hle : clockMillisAt step h m s ms
      ≤ (h % 12) * MILLIS_PER_HOUR + m * MILLIS_PER_MINUTE
        + s * MILLIS_PER_SECOND + ms := Nat.div_mul_le_self _ _
  have h12 : h % 12 ≤ 11 := Nat.le_of_lt_succ (Nat.mod_lt h (by norm_num))
  have hmul : (h % 12) * MILLIS_PER_HOUR ≤ 11 * MILLIS_PER_HOUR :=
    Nat.mul_le_mul_right _ h12
  simp only [MILLIS_PER_HOUR, MILLIS_PER_MINUTE, MILLIS_PER_SECOND, MILLIS_TOTAL] at *
  omega

/-- C10 (counterexample): the subtraction does underflow on a reachable
state.  Construct the legacy renderer at 11:59:59.900 (slot 43199900, step
100); a render tick in that same slot computes the offset target
`(43199900 + 900) % MILLIS_TOTAL = 800`, which is smaller than the front
entry's slot 43199900, so `current_millis - front().0` underflows. -/
theorem legacy_underflow_counterexample :
    intoRendererClock (fun _ => some [7]) "d" "f_%m.png" 100 none 11 59 59 900
      = some (.ok ⟨"d", "f_%m.png", 100, legacyInitCache 43199900 [7], false, none⟩) ∧
    legacyFrontUnderflow
      ⟨"d", "f_%m.png", 100, legacyInitCache 43199900 [7], false, none⟩ 11 59 59 900 := by
  refine ⟨by decide, ⟨(43199900, [7]), by decide, by decide⟩⟩

/-- C10 (amended): the legacy staleness test's `u32` subtraction
`current_millis - front().slot` is not underflow-free.  Whenever the renderer
is constructed at a slot within `9·step` of the end of the 12-hour cycle
(`MILLIS_TOTAL ≤ slot + 9·step`, with `0 < step` and `9·step` less than a
cycle), rendering again in the same slot reduces the offset target modulo the
cycle below the front slot, so the subtraction underflows. -/
theorem legacy_offset_underflow (dir tmpl : String) (img : Frame)
    (h m s ms step : Nat) (hstep : 0 < step) (h9 : 9 * step < MILLIS_TOTAL)
    (hm : m ≤ 59) (hs : s ≤ 59) (hms : ms ≤ 999)
    (hwrap : MILLIS_TOTAL ≤ clockMillisAt step h m s ms + step * 9) :
    intoRendererClock (fun _ => some img) dir tmpl step none h m s ms
      = some (.ok ⟨dir, tmpl, step,
          legacyInitCache (clockMillisAt step h m s ms) img, false, none⟩) ∧
    legacyFrontUnderflow
      ⟨dir, tmpl, step, legacyInitCache (clockMillisAt step h m s ms) img,
        false, none⟩ h m s ms := by
  have hne : step ≠ 0 := Nat.pos_iff_ne_zero.mp hstep
  constructor
  · simp [intoRendererClock, parseClockColor, clockMillisOpt, hne]
  · refine ⟨(clockMillisAt step h m s ms, img), rfl, ?_⟩
    have hm0 : clockMillisAt step h m s ms < MILLIS_TOTAL :=
      clockMillisAt_lt_total step h m s ms hm hs hms
    set m0 := clockMillisAt step h m s ms with hm0def
    have hsum : m0 + step * 9 < U32_MOD := by
      have : MILLIS_TOTAL + MILLIS_TOTAL < U32_MOD := by
        norm_num [MILLIS_TOTAL, MILLIS_PER_HOUR, MILLIS_PER_MINUTE,
          MILLIS_PER_SECOND, U32_MOD]
      omega
    have h1 : (m0 + step * 9) % U32_MOD = m0 + step * 9 := Nat.mod_eq_of_lt hsum
    have h2 : (m0 + step * 9) % MILLIS_TOTAL = m0 + step * 9 - MILLIS_TOTAL := by
      rw [Nat.mod_eq_sub_mod hwrap]
      exact Nat.mod_eq_of_lt (by omega)
    simp only [legacyOffsetMillis, h1, h2]
    omega

/-- Witness for `legacy_offset_underflow` at 11:59:59.900 with step 100. -/
theorem legacy_offset_underflow_witness :
    intoRendererClock (fun _ => some [9]) "dir" "t_%m.png" 100 none 11 59 59 900
      = some (.ok ⟨"dir", "t_%m.png", 100,
          legacyInitCache (clockMillisAt 100 11 59 59 900) [9], false, none⟩) ∧
    legacyFrontUnderflow
      ⟨"dir", "t_%m.png", 100, legacyInitCache (clockMillisAt 100 11 59 59 900) [9],
        false, none⟩ 11 59 59 900 :=
  legacy_offset_underflow "dir" "t_%m.png" [9] 11 59 59 900 100
    (by decide) (by decide) (by decide) (by decide) (by decide) (by decide)

end LegacyUnderflowTheorems

section ColorParseTheorems

/-- A hex digit's value is at most 15 and its character is ASCII. -/
theorem hexDigitVal_bounds (c : Char) (d : Nat) (h : hexDigitVal? c = some d) :
    d ≤ 15 ∧ c.toNat ≤ 127 := by
  unfold hexDigitVal? at h
  split_ifs at h with h1 h2 h3 <;> cases h <;> constructor <;> omega

/-- ASCII characters occupy one UTF-8 byte. -/
theorem utf8Size_eq_one (c : Char) (hc : c.toNat ≤ 127) : c.utf8Size = 1 := by
  have h : c.val ≤ UInt32.ofNatCore 0x7F (by decide) := by
    rw [UInt32.le_def, BitVec.le_def]
    exact hc
  simp only [Char.utf8Size]
  rw [if_pos h]

/-- The UTF-8 byte length of an all-ASCII character list is its length. -/
theorem utf8Len_eq_length :
    ∀ ds : List Char, (∀ c ∈ ds, c.toNat ≤ 127) → String.utf8Len ds = ds.length := by
  intro ds
  induction ds with
  | nil => intro _; rfl
  | cons c rest ih =>
    intro hall
    have h1 : c.toNat ≤ 127 := hall c (List.mem_cons_self c rest)
    rw [String.utf8Len_cons, ih (fun x hx => hall x (List.mem_cons_of_mem _ hx)),
      utf8Size_eq_one c h1, List.length_cons]

/-- The digit fold of `from_str_radix` succeeds on an all-hex-digit run whose
value cannot overflow. -/
theorem hexFold_some :
    ∀ (ds : List Char) (a : Nat), (∀ c ∈ ds, (hexDigitVal? c).isSome) →
      16 ^ ds.length * (a + 1) ≤ U32_MOD →
      ∃ v, ds.foldl hexStep (some a) = some v := by
  intro ds
  induction ds with
  | nil => intro a _ _; exact ⟨a, rfl⟩
  | cons c rest ih =>
    intro a hall hbound
    obtain ⟨d, hd⟩ := Option.isSome_iff_exists.mp (hall c (List.mem_cons_self c rest))
    have hd15 : d ≤ 15 := (hexDigitVal_bounds c d hd).1
    have hpow : 16 ^ (c :: rest).length = 16 ^ rest.length * 16 := by
      simp [List.length_cons, pow_succ]
    have hleU : 16 ^ rest.length * (a * 16 + d + 1) ≤ U32_MOD := by
      calc 16 ^ rest.length * (a * 16 + d + 1)
          ≤ 16 ^ rest.length * (16 * (a + 1)) := Nat.mul_le_mul_left _ (by omega)
        _ = 16 ^ (c :: rest).length * (a + 1) := by rw [hpow]; ring
        _ ≤ U32_MOD := hbound
    have hlt : a * 16 + d < U32_MOD := by
      have h1 : a * 16 + d + 1 ≤ 16 ^ rest.length * (a * 16 + d + 1) :=
        Nat.le_mul_of_pos_left _ (Nat.pos_pow_of_pos _ (by norm_num))
      omega
    have hstep : hexStep (some a) c = some (a * 16 + d) := by
      simp [hexStep, hd, hlt]
    rw [List.foldl_cons, hstep]
    exact ih (a * 16 + d) (fun x hx => hall x (List.mem_cons_of_mem _ hx)) hleU

/-- `from_str_radix` accepts every string of 1-6 hex digits, both bare and
with a leading `'+'`, and such a digit string occupies one byte per digit. -/
theorem fromStrRadix16_hex (ds : List Char) (hne : ds ≠ [])
    (hall : ∀ c ∈ ds, (hexDigitVal? c).isSome) (hlen : ds.length ≤ 6) :
    (fromStrRadix16 (String.mk ds)).isSome ∧
    (String.mk ds).utf8ByteSize = ds.length ∧
    (fromStrRadix16 (String.mk ('+' :: ds))).isSome := by
  have hbound : 16 ^ ds.length * (0 + 1) ≤ U32_MOD := by
    have hle : (16 : Nat) ^ ds.length ≤ 16 ^ 6 := Nat.pow_le_pow_right (by norm_num) hlen
    have : (16 : Nat) ^ 6 ≤ U32_MOD := by norm_num [U32_MOD]
    omega
  have hplus : ¬ (hexDigitVal? '+').isSome := by decide
  have hhead : ¬ ds.head? = some '+' := by
    cases ds with
    | nil => simp
    | cons c rest =>
      simp only [List.head?_cons, Option.some.injEq]
      intro hc
      subst hc
      exact hplus (hall '+' (List.mem_cons_self _ _))
  obtain ⟨v, hv⟩ := hexFold_some ds 0 hall hbound
  have hnoplus : fromStrRadix16 (String.mk ds)
      = if ds = [] then none else ds.foldl hexStep (some 0) := by
    have htl : (String.mk ds).toList = ds := rfl
    simp only [fromStrRadix16, htl, if_neg hhead]
  have hwithplus : fromStrRadix16 (String.mk ('+' :: ds))
      = if ds = [] then none else ds.foldl hexStep (some 0) := rfl
  refine ⟨?_, ?_, ?_⟩
  · rw [hnoplus, if_neg hne, hv]
    rfl
  · rw [String.utf8ByteSize_mk]
    exact utf8Len_eq_length ds (fun c hc => by
      obtain ⟨d, hd⟩ := Option.isSome_iff_exists.mp (hall c hc)
      exact (hexDigitVal_bounds c d hd).2)
  · rw [hwithplus, if_neg hne, hv]
    rfl

/-- C6 (amended): the token `RAINBOW` in any letter case (Unicode
uppercasing, so also case variants such as `raınbow` with a dotless i)
selects the rotating tint; every string of 1-6 hex digits — and, beyond the claim, also such a
digit run preceded by a `'+'` sign within 6 bytes, since `from_str_radix`
accepts an optional leading plus — yields a `Fixed` tint with components
`((p>>16)&0xFF)/255, ((p>>8)&0xFF)/255, (p&0xFF)/255`, each in `[0,1]`; a
value that is longer than 6 bytes or that `from_str_radix` rejects makes the
command fail before any image is loaded or cache built (the result is the
same error for every loader). -/
theorem clock_color_parse_spec :
    (∀ str : String, str.toList.flatMap rustToUpper = "RAINBOW".toList →
      parseClockColor (some str) = .ok (true, none)) ∧
    (∀ (str : String) (p : Nat), str.toList.flatMap rustToUpper ≠ "RAINBOW".toList →
      str.utf8ByteSize ≤ 6 → fromStrRadix16 str = some p →
      parseClockColor (some str)
        = .ok (false, some
            ((((p >>> 16) &&& 255 : Nat) : ℚ) / 255,
             (((p >>> 8) &&& 255 : Nat) : ℚ) / 255,
             ((p &&& 255 : Nat) : ℚ) / 255)) ∧
      (0 ≤ (((p >>> 16) &&& 255 : Nat) : ℚ) / 255
        ∧ (((p >>> 16) &&& 255 : Nat) : ℚ) / 255 ≤ 1) ∧
      (0 ≤ (((p >>> 8) &&& 255 : Nat) : ℚ) / 255
        ∧ (((p >>> 8) &&& 255 : Nat) : ℚ) / 255 ≤ 1) ∧
      (0 ≤ ((p &&& 255 : Nat) : ℚ) / 255 ∧ ((p &&& 255 : Nat) : ℚ) / 255 ≤ 1)) ∧
    (∀ ds : List Char, ds ≠ [] → (∀ c ∈ ds, (hexDigitVal? c).isSome) → ds.length ≤ 6 →
      (fromStrRadix16 (String.mk ds)).isSome ∧
      (String.mk ds).utf8ByteSize = ds.length ∧
      (fromStrRadix16 (String.mk ('+' :: ds))).isSome) ∧
    (∀ str : String, str.toList.flatMap rustToUpper ≠ "RAINBOW".toList →
      (6 < str.utf8ByteSize ∨ fromStrRadix16 str = none) →
      parseClockColor (some str) = .error () ∧
      (∀ (load : String → Option Frame) (dir tmpl : String) (step h m s ms : Nat),
        intoRendererClock load dir tmpl step (some str) h m s ms
          = some (.error ()))) := by
  have bound01 : ∀ n : Nat, n ≤ 255 → 0 ≤ (n : ℚ) / 255 ∧ (n : ℚ) / 255 ≤ 1 := by
    intro n hn
    constructor
    · positivity
    · rw [div_le_one (by norm_num)]
      exact_mod_cast hn
  refine ⟨?_, ?_, fromStrRadix16_hex, ?_⟩
  · intro str hup
    simp only [parseClockColor]
    rw [if_pos hup]
  · intro str p hup hsize hparse
    have hns : ¬ 6 < str.utf8ByteSize := Nat.not_lt.mpr hsize
    have hok : parseClockColor (some str)
        = .ok (false, some
            ((((p >>> 16) &&& 255 : Nat) : ℚ) / 255,
             (((p >>> 8) &&& 255 : Nat) : ℚ) / 255,
             ((p &&& 255 : Nat) : ℚ) / 255)) := by
      simp only [parseClockColor]
      rw [if_neg hup, if_neg hns, hparse]
    exact ⟨hok, bound01 _ Nat.and_le_right, bound01 _ Nat.and_le_right,
      bound01 _ Nat.and_le_right⟩
  · intro str hup hbad
    have herr : parseClockColor (some str) = .error () := by
      simp only [parseClockColor]
      rw [if_neg hup]
      by_cases hsz : 6 < str.utf8ByteSize
      · rw [if_pos hsz]
      · rcases hbad with hlong | hnone
        · exact absurd hlong hsz
        · rw [if_neg hsz, hnone]
    refine ⟨herr, ?_⟩
    intro load dir tmpl step h m s ms
    simp only [intoRendererClock, herr]

/-- Witness for `clock_color_parse_spec`: the invalid value `GGGGGG` is
rejected and the `ClockImage` command fails for any loader. -/
theorem clock_color_parse_spec_witness :
    parseClockColor (some "raınbow") = .ok (true, none) ∧
    parseClockColor (some "GGGGGG") = .error () ∧
    intoRendererClock (fun _ => some [1]) "d" "f_%m.png" 100 (some "GGGGGG") 0 0 0 0
      = some (.error ()) :=
  ⟨clock_color_parse_spec.1 "raınbow" (by decide),
   (clock_color_parse_spec.2.2.2 "GGGGGG" (by decide) (Or.inr (by decide))).1,
   (clock_color_parse_spec.2.2.2 "GGGGGG" (by decide) (Or.inr (by decide))).2
     (fun _ => some [1]) "d" "f_%m.png" 100 0 0 0 0⟩

/-- C6 (counterexample): the claim's rejection clause fails on the code.  The
value `+1F` is not a string of hex digits (it starts with `'+'`), yet
`from_str_radix` accepts it, so the command is not rejected: it parses to the
fixed tint `(0, 0, 31/255)`. -/
theorem clock_color_plus_sign_counterexample :
    parseClockColor (some "+1F") = .ok (false, some (0, 0, (31 : ℚ) / 255)) ∧
    ¬ (∀ c ∈ "+1F".toList, (hexDigitVal? c).isSome) := by
  constructor
  · simp +decide [parseClockColor, rustToUpper, fromStrRadix16, hexStep, hexDigitVal?, U32_MOD]
    norm_num [show (31 &&& 255 : Nat) = 31 from rfl]
  · decide

end ColorParseTheorems

end DesktopBackground
